import Mathlib

/-!
A shallow embedding of the BoundedBuffer data structure of
src/src/core/bounded_buf.rs, together with proofs about the specification
claims concerning it.

The raw allocation of cap elements is modelled as a total function
mem : Nat → T. Every offset carries some value, matching raw memory whose
bytes are arbitrary before initialization; the garbage contents of a fresh
allocation are a parameter of the constructor. Offsets at or beyond cap lie
outside the allocation; a write at such an offset is a heap overflow in the
real program, which the embedding makes visible through explicit
write-offset accounting where a claim needs it.
-/

namespace FixedBuf

/-- model of the Rust struct BoundedBuffer (lines 8-13): a raw memory
region, the count of live elements, and the fixed capacity. -/
structure BoundedBuffer (T : Type) where
  mem : Nat → T
  len : Nat
  cap : Nat

/-- pointwise store into raw memory, the model of a single pointer write. -/
def write {T : Type} (m : Nat → T) (i : Nat) (v : T) : Nat → T :=
  fun j => if j = i then v else m j

/-- model of std.ptr.copy (a memmove): offsets in the interval
from dst to dst + count receive the values previously held at the
corresponding offsets from src; all other offsets keep their values. -/
def copyMem {T : Type} (m : Nat → T) (src dst count : Nat) : Nat → T :=
  fun j => if dst ≤ j ∧ j < dst + count then m (src + (j - dst)) else m j

namespace BoundedBuffer

/-- model of BoundedBuffer::new (lines 16-29): an empty buffer over a fresh
allocation of the requested size. The initial contents of the allocation
are arbitrary garbage, supplied here as the parameter g; the source's
fatal checks (size over isize::MAX, allocation failure) concern the
environment, not the buffer logic, and no claim touches them. -/
def new (T : Type) (size : Nat) (g : Nat → T) : BoundedBuffer T :=
  ⟨g, 0, size⟩

/-- model of BoundedBuffer::get (lines 39-45). The source's bound check is
index > self.len, translated verbatim. -/
def get {T : Type} (b : BoundedBuffer T) (index : Nat) : Option T :=
  if index > b.len then none else some (b.mem index)

/-- model of BoundedBuffer::as_slice (lines 47-49): the live prefix of the
allocation, offsets 0 up to len. -/
def as_slice {T : Type} (b : BoundedBuffer T) : List T :=
  (List.range b.len).map b.mem

/-- model of BoundedBuffer::push_unchecked (lines 124-127): write elem at
offset len, then increment len. -/
def push_unchecked {T : Type} (b : BoundedBuffer T) (elem : T) : BoundedBuffer T :=
  ⟨write b.mem b.len elem, b.len + 1, b.cap⟩

/-- model of BoundedBuffer::try_push (lines 55-64): fail when len equals
cap, otherwise push_unchecked and report success. The mutated buffer is
returned explicitly in place of the &mut self parameter. -/
def try_push {T : Type} (b : BoundedBuffer T) (elem : T) : BoundedBuffer T × Bool :=
  if b.len = b.cap then (b, false) else (b.push_unchecked elem, true)

/-- values dropped inside a call of try_push. In the source, elem is moved
into the function; on the early return of the full branch (line 57) it is
neither stored in the buffer nor returned (the return type is bool), so
Rust drops it when the scope closes. On the success path it is written into
the allocation and nothing is dropped. -/
def try_push_dropped {T : Type} (b : BoundedBuffer T) (elem : T) : List T :=
  if b.len = b.cap then [elem] else []

/-- model of BoundedBuffer::insert_unchecked (lines 129-137): shift the
offsets from index through len one slot right with a memmove of
len - index elements, write elem at index, increment len. -/
def insert_unchecked {T : Type} (b : BoundedBuffer T) (index : Nat) (elem : T) :
    BoundedBuffer T :=
  ⟨write (copyMem b.mem index (index + 1) (b.len - index)) index elem, b.len + 1, b.cap⟩

/-- model of BoundedBuffer::try_insert (lines 66-75): fail when len equals
cap or index exceeds len, otherwise insert_unchecked and report success. -/
def try_insert {T : Type} (b : BoundedBuffer T) (index : Nat) (elem : T) :
    BoundedBuffer T × Bool :=
  if b.len = b.cap ∨ index > b.len then (b, false) else (b.insert_unchecked index elem, true)

/-- values dropped inside a call of try_insert; as with try_push_dropped,
the moved-in elem is dropped on the early failure return (line 68) because
the function returns only bool, and is stored on the success path. -/
def try_insert_dropped {T : Type} (b : BoundedBuffer T) (index : Nat) (elem : T) : List T :=
  if b.len = b.cap ∨ index > b.len then [elem] else []

/-- model of BoundedBuffer::insert_lossy (lines 77-87): unconditionally
memmove len - index elements from offset index to offset index + 1, write
elem at index, and set len to min cap (len + 1). The logical effect on the
memory function is translated verbatim; see insert_lossy_writeIdxs for the
offsets this touches in the real allocation. -/
def insert_lossy {T : Type} (b : BoundedBuffer T) (index : Nat) (elem : T) :
    BoundedBuffer T :=
  ⟨write (copyMem b.mem index (index + 1) (b.len - index)) index elem,
    min b.cap (b.len + 1), b.cap⟩

/-- allocation offsets written by one call of insert_lossy, read off the
source (lines 79-84): the memmove destination range runs from index + 1
for len - index elements, and elem itself is written at index. An offset
at or beyond cap lies outside the allocation of cap elements. -/
def insert_lossy_writeIdxs {T : Type} (b : BoundedBuffer T) (index : Nat) : List Nat :=
  ((List.range (b.len - index)).map (fun k => index + 1 + k)) ++ [index]

/-- model of BoundedBuffer::remove (lines 89-101): none models the fatal
assertion failure when index is not below len; otherwise the element at
index is read out, the offsets from index + 1 through the decremented
length are memmoved one slot left, and the value and new state are
returned. The source decrements len before computing the memmove count
(self.len - index with the decremented len), translated verbatim. -/
def remove {T : Type} (b : BoundedBuffer T) (index : Nat) :
    Option (T × BoundedBuffer T) :=
  if index < b.len then
    some (b.mem index,
      ⟨copyMem b.mem (index + 1) index ((b.len - 1) - index), b.len - 1, b.cap⟩)
  else
    none

/-- model of BoundedBuffer::clear (lines 103-109): drop_in_place destructs
the live elements and len is reset to 0; the allocation and cap are
untouched, so the stale bytes remain in the memory model. -/
def clear {T : Type} (b : BoundedBuffer T) : BoundedBuffer T :=
  ⟨b.mem, 0, b.cap⟩

/-- model of BoundedBuffer::pop (lines 111-118): on an empty buffer the
result is none and the state is unchanged; otherwise len is decremented and
the element at the old last offset is read out. The pair returns the
Option result together with the state left in &mut self. -/
def pop {T : Type} (b : BoundedBuffer T) : Option T × BoundedBuffer T :=
  if b.len = 0 then (none, b)
  else (some (b.mem (b.len - 1)), ⟨b.mem, b.len - 1, b.cap⟩)

/-- a sequence of try_push calls, one per list element in order; the
boolean records whether every call succeeded. -/
def pushAll {T : Type} (b : BoundedBuffer T) : List T → BoundedBuffer T × Bool
  | [] => (b, true)
  | v :: vs =>
    let r := b.try_push v
    let rest := r.1.pushAll vs
    (rest.1, r.2 && rest.2)

/-- observable state of a buffer: its capacity and the live prefix exposed
by as_slice (which also determines len). Memory beyond len is
uninitialized or stale and is not observable through the safe interface. -/
def observable {T : Type} (b : BoundedBuffer T) : Nat × List T :=
  (b.cap, b.as_slice)

end BoundedBuffer

/-- one operation of the safe public interface, for claims about operation
sequences. -/
inductive Op (T : Type) where
  | tryPush : T → Op T
  | tryInsert : Nat → T → Op T
  | insertLossy : Nat → T → Op T
  | removeAt : Nat → Op T
  | popLast : Op T
  | clearAll : Op T

/-- apply one operation to a buffer state. A remove whose index is out of
bounds terminates the program fatally in the source, so no subsequent state
is observable; the model keeps the prior state in that branch. -/
def step {T : Type} (b : BoundedBuffer T) : Op T → BoundedBuffer T
  | Op.tryPush v => (b.try_push v).1
  | Op.tryInsert i v => (b.try_insert i v).1
  | Op.insertLossy i v => b.insert_lossy i v
  | Op.removeAt i =>
    match b.remove i with
    | some p => p.2
    | none => b
  | Op.popLast => (b.pop).2
  | Op.clearAll => b.clear

/-- a capacity-2 buffer holding the single pushed value 5; the garbage in
the untouched part of its allocation is 0. -/
def bufC1 : BoundedBuffer Nat := ((BoundedBuffer.new Nat 2 (fun _ => 0)).try_push 5).1

/-- a full capacity-1 buffer holding the single pushed value 5. -/
def bufFull : BoundedBuffer Nat := ((BoundedBuffer.new Nat 1 (fun _ => 0)).try_push 5).1

/-- a full capacity-2 buffer holding the pushed values 10 and 20. -/
def bufC3 : BoundedBuffer Nat := ((BoundedBuffer.new Nat 2 (fun _ => 0)).pushAll [10, 20]).1

/-- a full capacity-4 buffer holding the pushed values 1, 2, 3, 4. -/
def buf4 : BoundedBuffer Nat := ((BoundedBuffer.new Nat 4 (fun _ => 0)).pushAll [1, 2, 3, 4]).1

/-- an empty capacity-2 buffer. -/
def bufEmpty : BoundedBuffer Nat := BoundedBuffer.new Nat 2 (fun _ => 0)



lemma copyMem_zero {T : Type} (m : Nat → T) (src dst : Nat) : copyMem m src dst 0 = m := by
  funext j
  have h : ¬ (dst ≤ j ∧ j < dst + 0) := by omega
  simp [copyMem, h]

namespace BoundedBuffer

lemma length_as_slice {T : Type} (b : BoundedBuffer T) : b.as_slice.length = b.len := by
  simp [as_slice]

lemma getElem_as_slice {T : Type} (b : BoundedBuffer T) (j : Nat) (h : j < b.as_slice.length) :
    b.as_slice[j] = b.mem j := by
  simp [as_slice]

lemma as_slice_congr {T : Type} (b c : BoundedBuffer T) (hlen : b.len = c.len)
    (hmem : ∀ j, j < b.len → b.mem j = c.mem j) : b.as_slice = c.as_slice := by
  simp only [as_slice, ← hlen]
  refine List.map_congr_left ?_
  intro j hj
  exact hmem j (List.mem_range.mp hj)

lemma write_self {T : Type} (m : Nat → T) (i : Nat) (v : T) : write m i v i = v := by
  simp [write]

lemma write_other {T : Type} (m : Nat → T) (i j : Nat) (v : T) (h : j ≠ i) :
    write m i v j = m j := by
  simp [write, h]

lemma as_slice_push {T : Type} (b : BoundedBuffer T) (v : T) :
    (b.push_unchecked v).as_slice = b.as_slice ++ [v] := by
  simp only [as_slice, push_unchecked, List.range_succ, List.map_append, List.map_cons,
    List.map_nil]
  congr 1
  · refine List.map_congr_left ?_
    intro j hj
    exact write_other b.mem b.len j v (by have := List.mem_range.mp hj; omega)
  · simp [write_self]

lemma insert_mem {T : Type} (b : BoundedBuffer T) (i : Nat) (v : T) (j : Nat) :
    (b.insert_unchecked i v).mem j =
      if j = i then v else if i < j ∧ j < b.len + 1 then b.mem (j - 1) else b.mem j := by
  simp only [insert_unchecked, write, copyMem]
  by_cases h1 : j = i
  · rw [if_pos h1, if_pos h1]
  · rw [if_neg h1, if_neg h1]
    by_cases h2 : i + 1 ≤ j ∧ j < i + 1 + (b.len - i)
    · rw [if_pos h2, if_pos (show i < j ∧ j < b.len + 1 by omega)]
      congr 1
      omega
    · rw [if_neg h2, if_neg (show ¬ (i < j ∧ j < b.len + 1) by omega)]

lemma as_slice_insert {T : Type} (b : BoundedBuffer T) (i : Nat) (v : T) (h : i ≤ b.len) :
    (b.insert_unchecked i v).as_slice = b.as_slice.take i ++ v :: b.as_slice.drop i := by
  apply List.ext_getElem
  · simp only [length_as_slice, insert_unchecked, List.length_append, List.length_take,
      List.length_cons, List.length_drop]
    omega
  · intro j hj1 hj2
    have hjlen : j < b.len + 1 := by
      have := hj1
      rw [length_as_slice] at this
      simpa [insert_unchecked] using this
    rw [getElem_as_slice, insert_mem]
    by_cases hcase : j < i
    · rw [if_neg (by omega), if_neg (by omega),
        List.getElem_append_left (by simp [length_as_slice]; omega),
        List.getElem_take, getElem_as_slice]
    · by_cases hcase2 : j = i
      · rw [if_pos hcase2,
          List.getElem_append_right (by simp [length_as_slice]; omega)]
        simp [length_as_slice, hcase2, Nat.min_eq_left h]
      · rw [if_neg hcase2, if_pos (by omega),
          List.getElem_append_right (by simp [length_as_slice]; omega)]
        have hidx : j - (b.as_slice.take i).length = (j - i - 1) + 1 := by
          simp [length_as_slice]
          omega
        simp only [hidx, List.getElem_cons_succ, List.getElem_drop, getElem_as_slice]
        congr 1
        omega

lemma copy_left_mem {T : Type} (b : BoundedBuffer T) (i j : Nat) :
    copyMem b.mem (i + 1) i ((b.len - 1) - i) j =
      if i ≤ j ∧ j < b.len - 1 then b.mem (j + 1) else b.mem j := by
  simp only [copyMem]
  by_cases h2 : i ≤ j ∧ j < i + ((b.len - 1) - i)
  · rw [if_pos h2, if_pos (by omega)]
    congr 1
    omega
  · rw [if_neg h2, if_neg (show ¬ (i ≤ j ∧ j < b.len - 1) by omega)]

lemma as_slice_remove {T : Type} (b : BoundedBuffer T) (i : Nat) (h : i < b.len) :
    (⟨copyMem b.mem (i + 1) i ((b.len - 1) - i), b.len - 1, b.cap⟩ : BoundedBuffer T).as_slice =
      b.as_slice.take i ++ b.as_slice.drop (i + 1) := by
  apply List.ext_getElem
  · simp [length_as_slice]
    omega
  · intro j hj1 hj2
    have hjlen : j < b.len - 1 := by
      rw [length_as_slice] at hj1
      simpa using hj1
    rw [getElem_as_slice]
    show copyMem b.mem (i + 1) i ((b.len - 1) - i) j = _
    rw [copy_left_mem]
    by_cases hcase : j < i
    · rw [if_neg (by omega),
        List.getElem_append_left (by simp [length_as_slice]; omega),
        List.getElem_take, getElem_as_slice]
    · rw [if_pos (by omega),
        List.getElem_append_right (by simp [length_as_slice]; omega)]
      have hidx : j - (b.as_slice.take i).length = j - i := by
        simp [length_as_slice]
        omega
      simp only [hidx, List.getElem_drop, getElem_as_slice]
      congr 1
      omega

lemma as_slice_take_len {T : Type} (b : BoundedBuffer T) (k : Nat) (hk : k ≤ b.len) :
    (⟨b.mem, k, b.cap⟩ : BoundedBuffer T).as_slice = b.as_slice.take k := by
  apply List.ext_getElem
  · simp [length_as_slice]
    omega
  · intro j hj1 hj2
    rw [getElem_as_slice]
    show b.mem j = _
    rw [List.getElem_take, getElem_as_slice]

lemma pushAll_spec {T : Type} (vs : List T) :
    ∀ b : BoundedBuffer T, b.len + vs.length ≤ b.cap →
      (b.pushAll vs).2 = true ∧ (b.pushAll vs).1.as_slice = b.as_slice ++ vs ∧
      (b.pushAll vs).1.len = b.len + vs.length ∧ (b.pushAll vs).1.cap = b.cap := by
  induction vs with
  | nil =>
    intro b h
    simp [pushAll]
  | cons v vs ih =>
    intro b h
    have hne : b.len ≠ b.cap := by
      simp at h
      omega
    have hstep : b.try_push v = (b.push_unchecked v, true) := by
      simp [try_push, hne]
    have hlen : (b.push_unchecked v).len = b.len + 1 := rfl
    have hcap2 : (b.push_unchecked v).cap = b.cap := rfl
    have hrec := ih (b.push_unchecked v) (by
      rw [hlen, hcap2]
      simp at h ⊢
      omega)
    simp only [pushAll, hstep]
    refine ⟨?_, ?_, ?_, ?_⟩
    · simp [hrec.1]
    · rw [hrec.2.1, as_slice_push]
      simp
    · rw [hrec.2.2.1, hlen]
      simp
      omega
    · rw [hrec.2.2.2, hcap2]

lemma try_push_fail {T : Type} (b : BoundedBuffer T) (v : T) (h : b.len = b.cap) :
    b.try_push v = (b, false) := by
  simp only [try_push, if_pos h]

lemma try_push_ok {T : Type} (b : BoundedBuffer T) (v : T) (h : ¬ b.len = b.cap) :
    b.try_push v = (b.push_unchecked v, true) := by
  simp only [try_push, if_neg h]

lemma try_insert_fail {T : Type} (b : BoundedBuffer T) (i : Nat) (v : T)
    (h : b.len = b.cap ∨ i > b.len) : b.try_insert i v = (b, false) := by
  simp only [try_insert, if_pos h]

lemma try_insert_ok {T : Type} (b : BoundedBuffer T) (i : Nat) (v : T)
    (h : ¬ (b.len = b.cap ∨ i > b.len)) :
    b.try_insert i v = (b.insert_unchecked i v, true) := by
  simp only [try_insert, if_neg h]

lemma remove_pos {T : Type} (b : BoundedBuffer T) (i : Nat) (h : i < b.len) :
    b.remove i = some (b.mem i,
      ⟨copyMem b.mem (i + 1) i ((b.len - 1) - i), b.len - 1, b.cap⟩) := by
  simp only [remove, if_pos h]

lemma remove_neg {T : Type} (b : BoundedBuffer T) (i : Nat) (h : ¬ i < b.len) :
    b.remove i = none := by
  simp only [remove, if_neg h]

lemma pop_zero {T : Type} (b : BoundedBuffer T) (h : b.len = 0) : b.pop = (none, b) := by
  simp only [pop, if_pos h]

lemma pop_pos {T : Type} (b : BoundedBuffer T) (h : ¬ b.len = 0) :
    b.pop = (some (b.mem (b.len - 1)), ⟨b.mem, b.len - 1, b.cap⟩) := by
  simp only [pop, if_neg h]

end BoundedBuffer

open BoundedBuffer

/-- Claim C1: the bound check in the source's get is index > len, not
index >= len, so get at index = len is not absent: on a buffer of length 1
inside capacity 2 it returns some value read from the uninitialized slot
(here the allocation garbage 0), where the claim requires absence. Indices
strictly beyond len are absent and in-range indices return their
elements, as the claim states. -/
theorem get_boundary_bug :
    bufC1.len = 1 ∧ bufC1.get 0 = some 5 ∧ bufC1.get 1 = some 0 ∧ bufC1.get 2 = none := by
  decide

/-- Claim C2, counterexample to the ownership clause: on a full buffer
try_push reports failure, but the moved-in value is dropped inside the
call (the function returns only a boolean), not returned to the caller. -/
theorem try_push_ownership_cex :
    bufFull.len = bufFull.cap ∧ (bufFull.try_push 7).2 = false ∧
      try_push_dropped bufFull 7 = [7] ∧ ¬ try_push_dropped bufFull 7 = [] := by
  decide

/-- Claim C2 as amended: try_push on a full buffer returns failure and the
wholly unchanged buffer (hence unchanged length and elements); the value
it consumed is dropped inside the call rather than handed back. -/
theorem try_push_full_spec {T : Type} (b : BoundedBuffer T) (v : T) (h : b.len = b.cap) :
    b.try_push v = (b, false) ∧ try_push_dropped b v = [v] := by
  exact ⟨try_push_fail b v h, by simp only [try_push_dropped, if_pos h]⟩

theorem try_push_full_spec_witness :
    bufFull.try_push 9 = (bufFull, false) ∧ try_push_dropped bufFull 9 = [9] :=
  try_push_full_spec bufFull 9 (by decide)

/-- Claim C3: on a full buffer (len = cap = 2, holding 10 and 20),
insert_lossy at index 0 writes the allocation offsets 1, 2 and 0, and
offset 2 = cap lies outside the 2-element allocation: the memmove moves
the tail element one slot past the end of the heap block (a heap
overflow) instead of discarding it within bounds. -/
theorem insert_lossy_oob_write :
    bufC3.len = bufC3.cap ∧ bufC3.cap = 2 ∧
      insert_lossy_writeIdxs bufC3 0 = [1, 2, 0] ∧
      (∃ i ∈ insert_lossy_writeIdxs bufC3 0, bufC3.cap ≤ i) := by
  decide

/-- one operation of the safe interface keeps len at most cap and leaves
cap unchanged. -/
lemma step_inv {T : Type} (b : BoundedBuffer T) (op : Op T) (h : b.len ≤ b.cap) :
    (step b op).len ≤ (step b op).cap ∧ (step b op).cap = b.cap := by
  cases op with
  | tryPush v =>
    by_cases hc : b.len = b.cap
    · rw [show step b (Op.tryPush v) = (b.try_push v).1 from rfl, try_push_fail b v hc]
      exact ⟨h, rfl⟩
    · rw [show step b (Op.tryPush v) = (b.try_push v).1 from rfl, try_push_ok b v hc]
      refine ⟨?_, rfl⟩
      show b.len + 1 ≤ b.cap
      omega
  | tryInsert i v =>
    by_cases hc : b.len = b.cap ∨ i > b.len
    · rw [show step b (Op.tryInsert i v) = (b.try_insert i v).1 from rfl,
        try_insert_fail b i v hc]
      exact ⟨h, rfl⟩
    · rw [show step b (Op.tryInsert i v) = (b.try_insert i v).1 from rfl,
        try_insert_ok b i v hc]
      refine ⟨?_, rfl⟩
      show b.len + 1 ≤ b.cap
      omega
  | insertLossy i v =>
    refine ⟨?_, rfl⟩
    show min b.cap (b.len + 1) ≤ b.cap
    omega
  | removeAt i =>
    by_cases hc : i < b.len
    · rw [show step b (Op.removeAt i) =
          (match b.remove i with | some p => p.2 | none => b) from rfl,
        remove_pos b i hc]
      refine ⟨?_, rfl⟩
      show b.len - 1 ≤ b.cap
      omega
    · rw [show step b (Op.removeAt i) =
          (match b.remove i with | some p => p.2 | none => b) from rfl,
        remove_neg b i hc]
      exact ⟨h, rfl⟩
  | popLast =>
    by_cases hc : b.len = 0
    · rw [show step b Op.popLast = (b.pop).2 from rfl, pop_zero b hc]
      exact ⟨h, rfl⟩
    · rw [show step b Op.popLast = (b.pop).2 from rfl, pop_pos b hc]
      refine ⟨?_, rfl⟩
      show b.len - 1 ≤ b.cap
      omega
  | clearAll =>
    exact ⟨Nat.zero_le _, rfl⟩

/-- the invariant is preserved along any operation sequence. -/
lemma foldl_inv {T : Type} (ops : List (Op T)) :
    ∀ b : BoundedBuffer T, b.len ≤ b.cap →
      (ops.foldl step b).len ≤ (ops.foldl step b).cap ∧ (ops.foldl step b).cap = b.cap := by
  induction ops with
  | nil =>
    intro b h
    exact ⟨h, rfl⟩
  | cons op ops ih =>
    intro b h
    have h1 := step_inv b op h
    have h2 := ih (step b op) (h1.2 ▸ h1.1)
    simp only [List.foldl_cons]
    exact ⟨h2.1, h2.2.trans h1.2⟩

/-- Claim C4: every sequence of safe-interface operations applied to a
freshly constructed buffer keeps len at most cap at every point and never
changes cap. The model applies the operations at every index, not only
valid ones: an out-of-bounds remove (which terminates the program fatally
in the source, leaving no observable state) keeps the state untouched, so
the stated valid-index sequences are a special case. -/
theorem invariant_preserved {T : Type} (c : Nat) (g : Nat → T) (ops : List (Op T)) :
    (ops.foldl step (BoundedBuffer.new T c g)).len ≤
        (ops.foldl step (BoundedBuffer.new T c g)).cap ∧
      (ops.foldl step (BoundedBuffer.new T c g)).cap = c :=
  foldl_inv ops (BoundedBuffer.new T c g) (Nat.zero_le c)

/-- Claim C5: remove at a valid index returns the element at that index,
shifts the elements after it left by one (stated through the live prefix
as_slice), decrements the length and keeps the capacity; at an index at
or beyond the length it fails fatally (modelled as none) instead of
returning a value. -/
theorem remove_spec {T : Type} :
    (∀ (b : BoundedBuffer T) (index : Nat), index < b.len →
      (b.remove index).map Prod.fst = some (b.mem index) ∧
      (b.remove index).map (fun p => (p.2).len) = some (b.len - 1) ∧
      (b.remove index).map (fun p => (p.2).cap) = some b.cap ∧
      (b.remove index).map (fun p => (p.2).as_slice) =
        some (b.as_slice.take index ++ b.as_slice.drop (index + 1))) ∧
    (∀ (b : BoundedBuffer T) (index : Nat), b.len ≤ index → b.remove index = none) := by
  constructor
  · intro b index h
    rw [remove_pos b index h]
    refine ⟨rfl, rfl, rfl, ?_⟩
    simp only [Option.map_some']
    rw [as_slice_remove b index h]
  · intro b index h
    exact remove_neg b index (by omega)

theorem remove_spec_witness :
    ((buf4.remove 1).map Prod.fst = some 2 ∧
        (buf4.remove 1).map (fun p => (p.2).len) = some 3 ∧
        (buf4.remove 1).map (fun p => (p.2).cap) = some 4 ∧
        (buf4.remove 1).map (fun p => (p.2).as_slice) = some [1, 3, 4]) ∧
      buf4.remove 9 = none := by
  have h1 := (remove_spec (T := Nat)).1 buf4 1 (by decide)
  have h2 := (remove_spec (T := Nat)).2 buf4 9 (by decide)
  refine ⟨⟨?_, ?_, ?_, ?_⟩, h2⟩
  · rw [h1.1]
    decide
  · rw [h1.2.1]
    decide
  · rw [h1.2.2.1]
    decide
  · rw [h1.2.2.2]
    decide

/-- Claim C6: pop on an empty buffer returns none without fatal
termination and leaves the state unchanged; on a non-empty buffer it
returns the last live element and decrements the length, with the
capacity and the remaining live prefix unchanged. -/
theorem pop_spec {T : Type} :
    (∀ b : BoundedBuffer T, b.len = 0 → b.pop = (none, b)) ∧
    (∀ b : BoundedBuffer T, 0 < b.len →
      (b.pop).1 = some (b.mem (b.len - 1)) ∧ (b.pop).2.len = b.len - 1 ∧
      (b.pop).2.cap = b.cap ∧ (b.pop).2.as_slice = b.as_slice.take (b.len - 1)) := by
  constructor
  · intro b h
    exact pop_zero b h
  · intro b h
    rw [pop_pos b (by omega)]
    exact ⟨rfl, rfl, rfl, as_slice_take_len b (b.len - 1) (by omega)⟩

theorem pop_spec_witness :
    bufEmpty.pop = (none, bufEmpty) ∧
      ((buf4.pop).1 = some 4 ∧ (buf4.pop).2.len = 3 ∧ (buf4.pop).2.cap = 4 ∧
        (buf4.pop).2.as_slice = [1, 2, 3]) := by
  have h1 := (pop_spec (T := Nat)).1 bufEmpty (by decide)
  have h2 := (pop_spec (T := Nat)).2 buf4 (by decide)
  refine ⟨h1, ?_, ?_, ?_, ?_⟩
  · rw [h2.1]
    decide
  · rw [h2.2.1]
    decide
  · rw [h2.2.2.1]
    decide
  · rw [h2.2.2.2]
    decide

/-- Claim C7, counterexample to the ownership clause: on a full buffer
try_insert reports failure, but the moved-in value is dropped inside the
call (the function returns only a boolean), not returned to the caller. -/
theorem try_insert_ownership_cex :
    bufFull.len = bufFull.cap ∧ (bufFull.try_insert 0 7).2 = false ∧
      try_insert_dropped bufFull 0 7 = [7] ∧ ¬ try_insert_dropped bufFull 0 7 = [] := by
  decide

/-- Claim C7 as amended: try_insert succeeds exactly under the source's
guard, which given the invariant len at most cap means length below
capacity and index at most length. On success it inserts the value at the
index, shifting the elements from the index on one slot right and
incrementing the length; on failure it reports failure with the buffer
wholly unchanged, and the value it consumed is dropped inside the call
rather than handed back to the caller. -/
theorem try_insert_spec {T : Type} :
    (∀ (b : BoundedBuffer T) (index : Nat) (v : T), b.len < b.cap → index ≤ b.len →
      (b.try_insert index v).2 = true ∧
      (b.try_insert index v).1.len = b.len + 1 ∧
      (b.try_insert index v).1.cap = b.cap ∧
      (b.try_insert index v).1.as_slice =
        b.as_slice.take index ++ v :: b.as_slice.drop index ∧
      try_insert_dropped b index v = []) ∧
    (∀ (b : BoundedBuffer T) (index : Nat) (v : T), b.len = b.cap ∨ b.len < index →
      b.try_insert index v = (b, false) ∧ try_insert_dropped b index v = [v]) := by
  constructor
  · intro b index v h1 h2
    have hg : ¬ (b.len = b.cap ∨ index > b.len) := by omega
    rw [try_insert_ok b index v hg]
    exact ⟨rfl, rfl, rfl, as_slice_insert b index v h2,
      by simp only [try_insert_dropped, if_neg hg]⟩
  · intro b index v h
    have hg : b.len = b.cap ∨ index > b.len := by omega
    exact ⟨try_insert_fail b index v hg, by simp only [try_insert_dropped, if_pos hg]⟩

/-- Claim C8: after clear the length is 0 and the capacity unchanged; a
following sequence of at most capacity pushes all succeed and yield a
buffer observably identical (same capacity and same live contents, hence
same length) to a freshly constructed buffer of the same capacity, with
any allocation garbage g, after the same pushes. -/
theorem clear_reuse {T : Type} (b : BoundedBuffer T) (vs : List T) (g : Nat → T)
    (h : vs.length ≤ b.cap) :
    b.clear.len = 0 ∧ b.clear.cap = b.cap ∧ (b.clear.pushAll vs).2 = true ∧
      observable (b.clear.pushAll vs).1 =
        observable ((BoundedBuffer.new T b.cap g).pushAll vs).1 := by
  have h1 := pushAll_spec vs b.clear (by
    show (0 : Nat) + vs.length ≤ b.cap
    omega)
  have h2 := pushAll_spec vs (BoundedBuffer.new T b.cap g) (by
    show (0 : Nat) + vs.length ≤ b.cap
    omega)
  refine ⟨rfl, rfl, h1.1, ?_⟩
  simp only [observable, Prod.mk.injEq, h1.2.1, h2.2.1, h1.2.2.2, h2.2.2.2]
  exact ⟨rfl, rfl⟩

theorem clear_reuse_witness :
    bufFull.clear.len = 0 ∧ bufFull.clear.cap = bufFull.cap ∧
      (bufFull.clear.pushAll [3]).2 = true ∧
      observable (bufFull.clear.pushAll [3]).1 =
        observable ((BoundedBuffer.new Nat bufFull.cap (fun _ => 0)).pushAll [3]).1 :=
  clear_reuse bufFull [3] (fun _ => 0) (by decide)

/-- Claim C9: on a buffer below capacity, try_push succeeds and an
immediately following pop returns the pushed value and restores the
observable state, the capacity and live contents and hence the length,
to exactly what it was before the push. -/
theorem push_pop_roundtrip {T : Type} (b : BoundedBuffer T) (v : T) (h : b.len < b.cap) :
    (b.try_push v).2 = true ∧ ((b.try_push v).1.pop).1 = some v ∧
      observable ((b.try_push v).1.pop).2 = observable b := by
  rw [try_push_ok b v (by omega)]
  rw [show ((b.push_unchecked v, true) : BoundedBuffer T × Bool).1 = b.push_unchecked v
    from rfl]
  rw [pop_pos (b.push_unchecked v) (by
    show ¬ b.len + 1 = 0
    omega)]
  refine ⟨rfl, ?_, ?_⟩
  · show some (write b.mem b.len v (b.len + 1 - 1)) = some v
    rw [Nat.add_sub_cancel, write_self]
  · simp only [observable, Prod.mk.injEq]
    refine ⟨rfl, ?_⟩
    apply as_slice_congr
    · show b.len + 1 - 1 = b.len
      omega
    · intro j hj
      have hj2 : j < b.len := by
        have hjl : j < b.len + 1 - 1 := hj
        omega
      exact write_other b.mem b.len j v (by omega)

theorem push_pop_roundtrip_witness :
    (bufC1.try_push 8).2 = true ∧ ((bufC1.try_push 8).1.pop).1 = some 8 ∧
      observable ((bufC1.try_push 8).1.pop).2 = observable bufC1 :=
  push_pop_roundtrip bufC1 8 (by decide)

/-- Claim C10: on a non-empty buffer, remove at index len - 1 returns the
same element as pop and leaves exactly the same state; pop is modelled as
returning its Option result beside the state it leaves in the buffer. -/
theorem remove_last_eq_pop {T : Type} (b : BoundedBuffer T) (h : 0 < b.len) :
    (b.pop).1.isSome = true ∧
      b.remove (b.len - 1) = (b.pop).1.map (fun v => (v, (b.pop).2)) := by
  rw [pop_pos b (by omega), remove_pos b (b.len - 1) (by omega)]
  refine ⟨rfl, ?_⟩
  simp only [Option.map_some']
  rw [Nat.sub_self, copyMem_zero]

theorem remove_last_eq_pop_witness :
    (buf4.pop).1.isSome = true ∧
      buf4.remove (buf4.len - 1) = (buf4.pop).1.map (fun v => (v, (buf4.pop).2)) :=
  remove_last_eq_pop buf4 (by decide)

end FixedBuf
